import Mathlib

/-!
Shallow embedding of the core of a portable Git library (object codec,
pkt-line framing, path safety, reference store with receive-pack CAS
updates, rebase state machine, patch replay, and partial-clone promisor
storage with backfill), together with theorems settling the frozen
claims about its specification.

Bytes are modelled as `Nat` values (each < 256 where it matters), byte
sequences as `List Nat`, and JavaScript strings as Lean `String`s
(ASCII-faithful; the sources only exercise ASCII in the verified
paths).  Fallible operations return `Except GitError`.
-/

namespace GitCore

/-- Error codes carried by `GitError` values in the source; `GENERIC`
models a plain JavaScript `Error` thrown without a code. -/
inductive GitErrorCode where
  | INVALID_ARGUMENT
  | LOCK_CONFLICT
  | NOT_FOUND
  | ALREADY_EXISTS
  | INTEGRITY_ERROR
  | OBJECT_FORMAT_ERROR
  | GENERIC
  deriving DecidableEq, Repr

/-- `GitError(message, code, details)` from the source, with the
`details` payload dropped (it only carries diagnostic context). -/
structure GitError where
  message : String
  code : GitErrorCode
  deriving DecidableEq, Repr

/-! ### JavaScript string primitives

Models of the JavaScript built-ins the source relies on, at the
granularity the verified code paths exercise (ASCII data). -/

/-- Characters stripped by JavaScript `String.prototype.trim` that the
sources can actually encounter (ASCII whitespace). -/
def jsIsWhitespace (c : Char) : Bool :=
  c.toNat = 32 || c.toNat = 9 || c.toNat = 10 || c.toNat = 13 ||
    c.toNat = 11 || c.toNat = 12

/-- `trim` on a character list: drop whitespace from both ends. -/
def trimChars (l : List Char) : List Char :=
  ((l.dropWhile jsIsWhitespace).reverse.dropWhile jsIsWhitespace).reverse

/-- JavaScript `String.prototype.trim`. -/
def jsTrim (s : String) : String :=
  String.mk (trimChars s.data)

/-- JavaScript `String.prototype.toLowerCase` (ASCII-faithful). -/
def jsToLower (s : String) : String :=
  String.mk (s.data.map Char.toLower)

/-- JavaScript `String.prototype.startsWith`. -/
def jsStartsWith (s pre : String) : Bool :=
  pre.data.isPrefixOf s.data

/-- Lexicographic-by-code-point comparison used to model
`(a, b) => a.localeCompare(b)` sorts; on the lowercase-hex object ids
and `refs/...` names the source sorts, locale collation agrees with
code-point order. -/
def strLe (a b : String) : Bool :=
  decide (a = b) || decide (a < b)

/-- Insertion of a string into an already sorted list. -/
def sortedInsert (a : String) : List String → List String
  | [] => [a]
  | b :: rest => if strLe a b then a :: b :: rest else b :: sortedInsert a rest

/-- Sorting model for `array.sort((a, b) => a.localeCompare(b))`. -/
def sortStrings : List String → List String
  | [] => []
  | a :: rest => sortedInsert a (sortStrings rest)

/-! ### Association-list maps

`Record<string, T>` / `Map<string, T>` values are modelled as
association lists keyed by strings, first binding wins on lookup. -/

/-- Lookup (`map.get` / `record[key]`). -/
def alGet {α : Type} (m : List (String × α)) (k : String) : Option α :=
  match m.find? (fun e => e.1 = k) with
  | some e => some e.2
  | none => none

/-- Overwrite-or-append (`map.set` / `record[key] = v`), preserving
insertion order the way JavaScript records do. -/
def alSet {α : Type} (m : List (String × α)) (k : String) (v : α) :
    List (String × α) :=
  match m with
  | [] => [(k, v)]
  | (k', v') :: rest =>
      if k' = k then (k, v) :: rest else (k', v') :: alSet rest k v

/-- Deletion (`map.delete` / `delete record[key]`). -/
def alRemove {α : Type} (m : List (String × α)) (k : String) :
    List (String × α) :=
  m.filter (fun e => !(e.1 = k : Bool))

/-- The keys of a record, in insertion order (`Object.keys`). -/
def alKeys {α : Type} (m : List (String × α)) : List String :=
  m.map (·.1)

theorem alGet_alSet_self {α : Type} (m : List (String × α)) (k : String)
    (v : α) : alGet (alSet m k v) k = some v := by
  induction m with
  | nil => simp [alSet, alGet, List.find?]
  | cons e rest ih =>
      by_cases h : e.1 = k
      · simp [alSet, alGet, h, List.find?]
      · simpa [alSet, alGet, h, List.find?] using ih

theorem alGet_alRemove_self {α : Type} (m : List (String × α))
    (k : String) : alGet (alRemove m k) k = none := by
  induction m with
  | nil => simp [alRemove, alGet, List.find?]
  | cons e rest ih =>
      by_cases h : e.1 = k
      · simpa [alRemove, alGet, h, List.find?] using ih
      · simpa [alRemove, alGet, h, List.find?] using ih

/-! ### Hexadecimal digits over byte values

The pkt-line codec works on raw bytes; the length header is read via
`String.fromCharCode` + `parseInt(hex, 16)` and written via
`n.toString(16).padStart(4, "0")`.  We model both directly over byte
values (ASCII code units). -/

/-- The numeric value of an ASCII hex digit code unit, if any
(`0`-`9`, `a`-`f`, `A`-`F`). -/
def hexDigitVal (c : Nat) : Option Nat :=
  if 48 ≤ c ∧ c ≤ 57 then some (c - 48)
  else if 97 ≤ c ∧ c ≤ 102 then some (c - 87)
  else if 65 ≤ c ∧ c ≤ 70 then some (c - 55)
  else none

/-- Whether a code unit is an ASCII hex digit. -/
def isHexDigit (c : Nat) : Bool :=
  (hexDigitVal c).isSome

/-- The value of a big-endian string of hex digit code units. -/
def hexVal (digits : List Nat) : Nat :=
  digits.foldl (fun acc c => acc * 16 + ((hexDigitVal c).getD 0)) 0

/-- The lowercase hex digit code unit for a value `< 16`
(as produced by JavaScript `toString(16)`). -/
def hexDigitChar (v : Nat) : Nat :=
  if v < 10 then 48 + v else 87 + v

/-- Code units of `n.toString(16)` (lowercase, no leading zeros). -/
def natToHex (n : Nat) : List Nat :=
  if _h : n < 16 then [hexDigitChar n]
  else natToHex (n / 16) ++ [hexDigitChar (n % 16)]
  decreasing_by exact Nat.div_lt_self (by omega) (by omega)

/-- `value.padStart(width, "0")` over code-unit lists. -/
def padStartZero (width : Nat) (digits : List Nat) : List Nat :=
  List.replicate (width - digits.length) 48 ++ digits

/-- Code units that JavaScript `parseInt` skips as leading whitespace
(ASCII subset; the header bytes the codec sees are ASCII). -/
def jsWsCode (c : Nat) : Bool :=
  c = 32 || c = 9 || c = 10 || c = 13 || c = 11 || c = 12

/-- `Number.parseInt(s, 16)` over code units: skip leading whitespace,
read an optional sign, drop an optional `0x`/`0X` prefix, then take the
longest run of hex digits; `none` models `NaN`. -/
def jsParseIntHex (cs : List Nat) : Option Int :=
  let cs1 := cs.dropWhile jsWsCode
  let sign : Int := if cs1.head? = some 45 then -1 else 1
  let cs2 :=
    if cs1.head? = some 43 ∨ cs1.head? = some 45 then cs1.tail else cs1
  let cs3 :=
    if cs2.head? = some 48 ∧
        (cs2.tail.head? = some 120 ∨ cs2.tail.head? = some 88) then
      cs2.tail.tail
    else cs2
  let digits := cs3.takeWhile isHexDigit
  if digits.isEmpty then none
  else some (sign * (hexVal digits : Int))

theorem hexDigitVal_hexDigitChar (v : Nat) (h : v < 16) :
    hexDigitVal (hexDigitChar v) = some v := by
  unfold hexDigitChar
  by_cases h10 : v < 10
  · rw [if_pos h10]; unfold hexDigitVal
    rw [if_pos (by omega)]
    congr 1; omega
  · rw [if_neg h10]; unfold hexDigitVal
    rw [if_neg (by omega), if_pos (by omega)]
    congr 1; omega

theorem hexDigitChar_bounds (v : Nat) (h : v < 16) :
    (48 ≤ hexDigitChar v ∧ hexDigitChar v ≤ 57) ∨
      (97 ≤ hexDigitChar v ∧ hexDigitChar v ≤ 102) := by
  unfold hexDigitChar
  by_cases h10 : v < 10
  · rw [if_pos h10]; omega
  · rw [if_neg h10]; omega

theorem natToHex_bounds (n : Nat) :
    ∀ c ∈ natToHex n, (48 ≤ c ∧ c ≤ 57) ∨ (97 ≤ c ∧ c ≤ 102) := by
  induction n using Nat.strong_induction_on with
  | _ n ih =>
      intro c hc
      unfold natToHex at hc
      by_cases h16 : n < 16
      · rw [dif_pos h16] at hc
        simp only [List.mem_singleton] at hc
        subst hc
        exact hexDigitChar_bounds n h16
      · rw [dif_neg h16] at hc
        rcases List.mem_append.mp hc with h | h
        · exact ih (n / 16) (Nat.div_lt_self (by omega) (by omega)) c h
        · simp only [List.mem_singleton] at h
          subst h
          exact hexDigitChar_bounds (n % 16) (Nat.mod_lt _ (by omega))

/-- `c` is the code unit of an ASCII hex digit (digit, lowercase or
uppercase letter). -/
def isHexByteP (c : Nat) : Prop :=
  (48 ≤ c ∧ c ≤ 57) ∨ (97 ≤ c ∧ c ≤ 102) ∨ (65 ≤ c ∧ c ≤ 70)

theorem isHexDigit_of_bounds (c : Nat)
    (h : isHexByteP c) : isHexDigit c = true := by
  unfold isHexDigit hexDigitVal
  rcases h with h | h | h
  · rw [if_pos (by omega)]; rfl
  · rw [if_neg (by omega), if_pos (by omega)]; rfl
  · rw [if_neg (by omega), if_neg (by omega), if_pos (by omega)]; rfl

theorem hexDigitVal_lt_16 (c : Nat) (h : isHexByteP c) :
    (hexDigitVal c).getD 0 < 16 := by
  unfold hexDigitVal
  rcases h with h | h | h
  · rw [if_pos (by omega)]; simp; omega
  · rw [if_neg (by omega), if_pos (by omega)]; simp; omega
  · rw [if_neg (by omega), if_neg (by omega), if_pos (by omega)]
    simp; omega

theorem hexVal_append_single (l : List Nat) (c : Nat) :
    hexVal (l ++ [c]) = hexVal l * 16 + (hexDigitVal c).getD 0 := by
  unfold hexVal
  rw [List.foldl_append]
  rfl

theorem hexVal_natToHex (n : Nat) : hexVal (natToHex n) = n := by
  induction n using Nat.strong_induction_on with
  | _ n ih =>
      unfold natToHex
      by_cases h16 : n < 16
      · rw [dif_pos h16]
        unfold hexVal
        simp [hexDigitVal_hexDigitChar n h16]
      · rw [dif_neg h16]
        rw [hexVal_append_single,
          ih (n / 16) (Nat.div_lt_self (by omega) (by omega)),
          hexDigitVal_hexDigitChar (n % 16) (Nat.mod_lt _ (by omega))]
        simp only [Option.getD_some]
        omega

theorem hexVal_padStartZero (width : Nat) (l : List Nat) :
    hexVal (padStartZero width l) = hexVal l := by
  unfold padStartZero hexVal
  rw [List.foldl_append]
  have hrep : ∀ k, List.foldl
      (fun acc c => acc * 16 + ((hexDigitVal c).getD 0)) 0
      (List.replicate k 48) = 0 := by
    intro k
    induction k with
    | zero => rfl
    | succ k ihk =>
        rw [List.replicate_succ, List.foldl_cons]
        simpa [hexDigitVal] using ihk
  rw [hrep]

theorem natToHex_length_le (k n : Nat) (hk : 1 ≤ k) (h : n < 16 ^ k) :
    (natToHex n).length ≤ k := by
  induction k generalizing n with
  | zero => omega
  | succ k ihk =>
      unfold natToHex
      by_cases h16 : n < 16
      · rw [dif_pos h16]; simp
      · rw [dif_neg h16]
        have hk1 : 1 ≤ k := by
          by_contra hk0
          have : k = 0 := by omega
          subst this
          simp [pow_succ, pow_zero] at h
          omega
        have hdiv : n / 16 < 16 ^ k := by
          rw [Nat.div_lt_iff_lt_mul (by omega)]
          calc n < 16 ^ (k + 1) := h
            _ = 16 ^ k * 16 := by ring
        have := ihk (n / 16) hk1 hdiv
        simp only [List.length_append, List.length_singleton]
        omega

theorem padStartZero_length (l : List Nat) (h : l.length ≤ 4) :
    (padStartZero 4 l).length = 4 := by
  unfold padStartZero
  simp only [List.length_append, List.length_replicate]
  omega

/-- `jsParseIntHex` on a nonempty all-hex-digit string is the string's
hex value. -/
theorem jsParseIntHex_all_hex (l : List Nat) (hne : l ≠ [])
    (hall : ∀ c ∈ l, isHexByteP c) :
    jsParseIntHex l = some ((hexVal l : Nat) : Int) := by
  obtain ⟨c, rest, rfl⟩ := List.exists_cons_of_ne_nil hne
  have hc := hall c (List.mem_cons_self _ _)
  have hdrop : (c :: rest).dropWhile jsWsCode = c :: rest := by
    rw [List.dropWhile_cons]
    have : jsWsCode c = false := by
      unfold jsWsCode
      simp only [Bool.or_eq_false_iff, decide_eq_false_iff_not]
      unfold isHexByteP at hc
      omega
    rw [this]
    simp
  have htake : (c :: rest).takeWhile isHexDigit = c :: rest := by
    rw [List.takeWhile_eq_self_iff]
    intro a ha
    exact isHexDigit_of_bounds a (hall a ha)
  unfold jsParseIntHex
  rw [hdrop]
  simp only [List.head?_cons]
  unfold isHexByteP at hc
  have hc45 : ¬(some c = some 45) := by
    intro hcontra
    simp only [Option.some_inj] at hcontra
    omega
  have hc43 : ¬(some c = some 43 ∨ some c = some 45) := by
    rintro (hcontra | hcontra) <;>
      (simp only [Option.some_inj] at hcontra; omega)
  rw [if_neg hc45, if_neg hc43]
  have hpre : ¬((c :: rest).head? = some 48 ∧
      ((c :: rest).tail.head? = some 120 ∨
        (c :: rest).tail.head? = some 88)) := by
    rintro ⟨_, hx | hx⟩ <;>
      · simp only [List.tail_cons] at hx
        cases rest with
        | nil => simp at hx
        | cons d rest' =>
            simp only [List.head?_cons, Option.some_inj] at hx
            have hd := hall d (by simp)
            unfold isHexByteP at hd
            omega
  rw [if_neg hpre, htake]
  rw [if_neg (by simp)]
  simp

/-! ### Pkt-line codec (`src/core/protocol/pkt-line.ts`) -/

def PKT_LINE_MAX_TOTAL_BYTES : Nat := 65520
def PKT_LINE_MAX_DATA_BYTES : Nat := 65516

/-- `parsePktLine(frame)`: read the 4-byte hex length header, treat a
zero length as a flush frame, enforce the length limits, and require
the frame to be exactly the advertised size. -/
def parsePktLine (frame : List Nat) : Except GitError (List Nat) :=
  if frame.length < 4 then
    .error ⟨"pkt-line frame header is short", .GENERIC⟩
  else
    match jsParseIntHex (frame.take 4) with
    | none => .error ⟨"pkt-line length header invalid", .GENERIC⟩
    | some totalLength =>
      if totalLength = 0 then .ok []
      else if totalLength < 4 then
        .error ⟨"pkt-line total length invalid", .GENERIC⟩
      else
        let dataLength := totalLength - 4
        if dataLength > (PKT_LINE_MAX_DATA_BYTES : Int) then
          .error ⟨"pkt-line data length limit exceeded", .GENERIC⟩
        else if totalLength > (PKT_LINE_MAX_TOTAL_BYTES : Int) then
          .error ⟨"pkt-line total length limit exceeded", .GENERIC⟩
        else if (frame.length : Int) ≠ totalLength then
          .error ⟨"pkt-line payload length mismatch", .GENERIC⟩
        else .ok (frame.drop 4)

/-- `makePktLine(data)`: reject over-long payloads, then emit the
4-digit lowercase hex header followed by the payload. -/
def makePktLine (data : List Nat) : Except GitError (List Nat) :=
  if data.length > PKT_LINE_MAX_DATA_BYTES then
    .error ⟨"pkt-line data length limit exceeded", .GENERIC⟩
  else
    let totalLength := data.length + 4
    let hdr := padStartZero 4 (natToHex totalLength)
    .ok (hdr ++ data)

/-- The pkt-line header produced by `makePktLine` is 4 bytes long. -/
theorem pktHeader_length (d : List Nat) (h : d.length ≤ PKT_LINE_MAX_DATA_BYTES) :
    (padStartZero 4 (natToHex (d.length + 4))).length = 4 := by
  apply padStartZero_length
  apply natToHex_length_le 4 (d.length + 4) (by omega)
  unfold PKT_LINE_MAX_DATA_BYTES at h
  norm_num
  omega

/-- The pkt-line header consists of ASCII digits and lowercase hex
letters only. -/
theorem pktHeader_bounds (n : Nat) :
    ∀ c ∈ padStartZero 4 (natToHex n),
      (48 ≤ c ∧ c ≤ 57) ∨ (97 ≤ c ∧ c ≤ 102) := by
  intro c hc
  unfold padStartZero at hc
  rcases List.mem_append.mp hc with h | h
  · have := List.eq_of_mem_replicate h
    omega
  · exact natToHex_bounds n c h

/-- **C2.** For every byte sequence `d` with at most 65516 bytes,
`parsePktLine (makePktLine d)` returns exactly `d`, and the first four
bytes of `makePktLine d` are the lowercase hexadecimal of `|d| + 4`
zero-padded to 4 ASCII digits. -/
theorem pktLine_roundtrip (d : List Nat)
    (h : d.length ≤ PKT_LINE_MAX_DATA_BYTES) :
    makePktLine d = .ok (padStartZero 4 (natToHex (d.length + 4)) ++ d) ∧
    parsePktLine (padStartZero 4 (natToHex (d.length + 4)) ++ d) = .ok d ∧
    (padStartZero 4 (natToHex (d.length + 4))).length = 4 ∧
    (∀ c ∈ padStartZero 4 (natToHex (d.length + 4)),
      (48 ≤ c ∧ c ≤ 57) ∨ (97 ≤ c ∧ c ≤ 102)) ∧
    hexVal (padStartZero 4 (natToHex (d.length + 4))) = d.length + 4 := by
  have hdataMax : d.length ≤ 65516 := h
  set hdr := padStartZero 4 (natToHex (d.length + 4)) with hhdr
  have hlen : hdr.length = 4 := pktHeader_length d h
  have hbounds := pktHeader_bounds (d.length + 4)
  have hval : hexVal hdr = d.length + 4 := by
    rw [hhdr, hexVal_padStartZero, hexVal_natToHex]
  refine ⟨?_, ?_, hlen, hbounds, hval⟩
  · unfold makePktLine
    rw [if_neg (by omega)]
  · unfold parsePktLine
    rw [if_neg (by simp only [List.length_append, hlen]; omega)]
    rw [List.take_append_of_le_length (by omega),
      List.take_of_length_le (by omega)]
    rw [jsParseIntHex_all_hex hdr
      (by intro hcontra; rw [hcontra] at hlen; simp at hlen)
      (fun c hc => by
        rcases hbounds c hc with hcb | hcb
        exacts [Or.inl hcb, Or.inr (Or.inl hcb)])]
    rw [hval]
    simp only [PKT_LINE_MAX_DATA_BYTES, PKT_LINE_MAX_TOTAL_BYTES,
      List.length_append, hlen]
    rw [if_neg (by push_cast; omega), if_neg (by push_cast; omega),
      if_neg (by push_cast; omega), if_neg (by push_cast; omega),
      if_neg (by push_cast; omega)]
    rw [List.drop_append_of_le_length (by omega)]
    simp [hlen]

/-- **C2 (witness).** The round-trip theorem applied to the concrete
two-byte payload `"hi"`: the frame is `"0006hi"`. -/
theorem pktLine_roundtrip_witness :
    makePktLine [104, 105] = .ok [48, 48, 48, 54, 104, 105] ∧
    parsePktLine [48, 48, 48, 54, 104, 105] = .ok [104, 105] := by
  have h := pktLine_roundtrip [104, 105] (by decide)
  have hhdr : padStartZero 4 (natToHex ([104, 105].length + 4)) =
      [48, 48, 48, 54] := by
    simp [natToHex, padStartZero, hexDigitChar, List.replicate]
  constructor
  · rw [h.1, hhdr]
    rfl
  · have h2 := h.2.1
    rw [hhdr] at h2
    exact h2

theorem hexVal_four_lt (a b c e : Nat) (ha : isHexByteP a)
    (hb : isHexByteP b) (hc : isHexByteP c) (he : isHexByteP e) :
    hexVal [a, b, c, e] < 65536 := by
  have h1 := hexDigitVal_lt_16 a ha
  have h2 := hexDigitVal_lt_16 b hb
  have h3 := hexDigitVal_lt_16 c hc
  have h4 := hexDigitVal_lt_16 e he
  simp only [hexVal, List.foldl_cons, List.foldl_nil, Nat.zero_mul,
    Nat.zero_add]
  omega

/-- **C3 (counterexample).** The frame with header `"0000"` and one
trailing byte (`'X'` = 88) is mis-sized — its total length 5 differs
from the encoded length 0 — yet `parsePktLine` accepts it, returning
the empty payload instead of failing. -/
theorem parsePktLine_flush_trailing_accepted :
    parsePktLine [48, 48, 48, 48, 88] = .ok [] ∧
    [48, 48, 48, 48, 88].length ≠ hexVal [48, 48, 48, 48] := by
  constructor
  · rfl
  · decide

/-- **C3 (amended).** For a frame starting with a 4-hex-digit header
encoding `n`: when `n ≠ 0` and the frame's total length differs from
`n`, parsing fails; when the encoded data length exceeds 65516
(equivalently the total exceeds 65520), parsing fails; but when
`n = 0` the frame is accepted as an empty flush frame even if it
carries trailing bytes. -/
theorem parsePktLine_misSized_rejected (a b c e : Nat) (rest : List Nat)
    (ha : isHexByteP a) (hb : isHexByteP b) (hc : isHexByteP c)
    (he : isHexByteP e) :
    (hexVal [a, b, c, e] ≠ 0 ∧
        ([a, b, c, e] ++ rest).length ≠ hexVal [a, b, c, e] →
      ∃ err, parsePktLine ([a, b, c, e] ++ rest) = .error err) ∧
    (hexVal [a, b, c, e] - 4 > PKT_LINE_MAX_DATA_BYTES →
      ∃ err, parsePktLine ([a, b, c, e] ++ rest) = .error err) ∧
    (hexVal [a, b, c, e] = 0 →
      parsePktLine ([a, b, c, e] ++ rest) = .ok []) := by
  set n := hexVal [a, b, c, e] with hn
  have hnlt : n < 65536 := hexVal_four_lt a b c e ha hb hc he
  have hall : ∀ x ∈ [a, b, c, e], isHexByteP x := by
    intro x hx
    simp only [List.mem_cons, List.not_mem_nil, or_false] at hx
    rcases hx with rfl | rfl | rfl | rfl <;> assumption
  have hparse : jsParseIntHex (([a, b, c, e] ++ rest).take 4) =
      some ((n : Nat) : Int) := by
    rw [List.take_append_of_le_length (by simp),
      List.take_of_length_le (by simp)]
    exact jsParseIntHex_all_hex _ (by simp) hall
  have hflen : ([a, b, c, e] ++ rest).length = 4 + rest.length := by
    simp
    omega
  refine ⟨?_, ?_, ?_⟩
  · rintro ⟨hne, hlen⟩
    unfold parsePktLine
    rw [if_neg (by omega), hparse]
    simp only
    rw [if_neg (by exact_mod_cast hne)]
    by_cases h4 : (n : Int) < 4
    · rw [if_pos h4]; exact ⟨_, rfl⟩
    · rw [if_neg h4]
      by_cases hdata : ((n : Int) - 4) > (PKT_LINE_MAX_DATA_BYTES : Int)
      · rw [if_pos hdata]; exact ⟨_, rfl⟩
      · rw [if_neg hdata]
        by_cases htot : ((n : Int)) > (PKT_LINE_MAX_TOTAL_BYTES : Int)
        · rw [if_pos htot]; exact ⟨_, rfl⟩
        · rw [if_neg htot]
          rw [if_pos (by rw [hflen] at hlen ⊢; push_cast; omega)]
          exact ⟨_, rfl⟩
  · intro hover
    unfold PKT_LINE_MAX_DATA_BYTES at hover
    unfold parsePktLine
    rw [if_neg (by omega), hparse]
    simp only
    rw [if_neg (by omega), if_neg (by omega)]
    rw [if_pos (by unfold PKT_LINE_MAX_DATA_BYTES; push_cast; omega)]
    exact ⟨_, rfl⟩
  · intro hzero
    unfold parsePktLine
    rw [if_neg (by omega), hparse]
    simp only
    rw [if_pos (by exact_mod_cast hzero)]

/-- **C3 (amended, witness).** The theorem applied to the concrete
mis-sized frame `"0005"` with no payload. -/
theorem parsePktLine_misSized_rejected_witness :
    ∃ err, parsePktLine ([48, 48, 48, 53] ++ []) = .error err := by
  refine (parsePktLine_misSized_rejected 48 48 48 53 []
    (by unfold isHexByteP; omega) (by unfold isHexByteP; omega)
    (by unfold isHexByteP; omega) (by unfold isHexByteP; omega)).1 ?_
  refine ⟨by decide, by decide⟩

/-! ### Loose object codec (`src/core/index/index-v2.ts`) -/

/-- Decimal value of a digit-code-unit string. -/
def decVal (digits : List Nat) : Nat :=
  digits.foldl (fun acc c => acc * 10 + (c - 48)) 0

/-- Code units of `n.toString()` in base 10. -/
def natToDec (n : Nat) : List Nat :=
  if _h : n < 10 then [48 + n]
  else natToDec (n / 10) ++ [48 + n % 10]
  decreasing_by exact Nat.div_lt_self (by omega) (by omega)

/-- Models the JavaScript `Number(s)` conversion composed with the
`Number.isInteger(size) && size >= 0` guard that follows it in
`decodeLooseObject`: surrounding whitespace is ignored, the empty
string converts to 0, and a run of decimal digits converts to its
value.  Exotic spellings JavaScript would also convert (hex or
exponent forms, signs, fractions that happen to be integral) are
conservatively mapped to `none`; the codec's verified paths only
exercise plain decimal sizes. -/
def jsNumberSize (cs : List Nat) : Option Nat :=
  let t := ((cs.dropWhile jsWsCode).reverse.dropWhile jsWsCode).reverse
  if t.isEmpty then some 0
  else if t.all (fun c => 48 ≤ c && c ≤ 57) then some (decVal t)
  else none

/-- `decodeLooseObject(rawObject)`: find the first NUL, split the
header at its first space into a type token and a size, require the
size to equal the remaining byte count.  The type token is returned
as-is — the source casts it with `as GitObjectType` without checking
membership in {blob, tree, commit, tag}. -/
def decodeLooseObject (rawObject : List Nat) :
    Except GitError (List Nat × List Nat) :=
  match rawObject.findIdx? (fun c => c = 0) with
  | none => .error ⟨"invalid loose object header", .GENERIC⟩
  | some nullIndex =>
    let header := rawObject.take nullIndex
    match header.findIdx? (fun c => c = 32) with
    | none => .error ⟨"invalid loose object type and size", .GENERIC⟩
    | some separator =>
      let objectType := header.take separator
      match jsNumberSize (header.drop (separator + 1)) with
      | none => .error ⟨"invalid loose object size", .GENERIC⟩
      | some size =>
        let payload := rawObject.drop (nullIndex + 1)
        if payload.length ≠ size then
          .error ⟨"loose object size mismatch", .GENERIC⟩
        else .ok (objectType, payload)

/-- The four Git object types, as ASCII code-unit lists:
`blob`, `tree`, `commit`, `tag`. -/
def gitObjectTypeTokens : List (List Nat) :=
  [[98, 108, 111, 98], [116, 114, 101, 101],
   [99, 111, 109, 109, 105, 116], [116, 97, 103]]

/-- **C7.** The byte string `"foo 3\0abc"` has the unknown type token
`"foo"`, yet `decodeLooseObject` accepts it and returns that token
verbatim with the payload `"abc"` — the source casts the token with
`as GitObjectType` instead of validating membership in
{blob, tree, commit, tag}, contradicting its declared return type and
the documented decode contract. -/
theorem decodeLooseObject_accepts_unknown_type :
    decodeLooseObject [102, 111, 111, 32, 51, 0, 97, 98, 99] =
      .ok ([102, 111, 111], [97, 98, 99]) ∧
    [102, 111, 111] ∉ gitObjectTypeTokens :=
  ⟨rfl, by decide⟩

/-! ### Worktree path safety (`isSafeWorktreePath`) -/

/-- `/^[A-Za-z]:[\\/]/.test(p)`: a Windows drive prefix. -/
def hasWindowsDrivePrefix (p : String) : Bool :=
  match p.data with
  | c :: ':' :: s :: _ =>
      ((('A' ≤ c && c ≤ 'Z') || ('a' ≤ c && c ≤ 'z')) &&
        (s = '/' || s = '\\'))
  | _ => false

/-- Backslash normalization applied before segment checks
(`replaceAll("\\", "/")`). -/
def normalizeSlashes (l : List Char) : List Char :=
  l.map (fun ch => if ch = '\\' then '/' else ch)

/-- `isSafeWorktreePath(p)`: reject the empty path, NUL bytes,
absolute prefixes, drive prefixes, and any empty / `.` / `..`
segment after backslash normalization. -/
def isSafeWorktreePath (p : String) : Bool :=
  if p.length = 0 then false
  else if p.data.contains '\x00' then false
  else if jsStartsWith p "/" then false
  else if jsStartsWith p "\\" then false
  else if hasWindowsDrivePrefix p then false
  else
    ((normalizeSlashes p.data).splitOn '/').all
      (fun seg => !(seg.isEmpty) && !(seg == ['.']) && !(seg == ['.', '.']))

/-- `assertSafeWorktreePath(p)`: throw unless the path is safe. -/
def assertSafeWorktreePath (p : String) : Except GitError Unit :=
  if isSafeWorktreePath p then .ok ()
  else .error ⟨"checkout path escapes worktree root", .GENERIC⟩

/-- **C8 (counterexample).** `"a..b"` contains the substring `".."`,
yet `isSafeWorktreePath` accepts it: the check is per path segment,
not per substring. -/
theorem isSafeWorktreePath_substring_counterexample :
    ['.', '.'] <:+: "a..b".data ∧ isSafeWorktreePath "a..b" = true := by
  constructor
  · decide
  · rfl

/-- **C8 (amended).** `isSafeWorktreePath p` is false for every path
that (after backslash normalization) has a `..` segment, or starts
with `/` or `\`, or contains a NUL character, or begins with a
Windows drive prefix. -/
theorem isSafeWorktreePath_rejects (p : String)
    (h : ['.', '.'] ∈ (normalizeSlashes p.data).splitOn '/' ∨
      jsStartsWith p "/" = true ∨ jsStartsWith p "\\" = true ∨
      '\x00' ∈ p.data ∨ hasWindowsDrivePrefix p = true) :
    isSafeWorktreePath p = false := by
  unfold isSafeWorktreePath
  by_cases h0 : p.length = 0
  · rw [if_pos h0]
  rw [if_neg h0]
  by_cases hnul : p.data.contains '\x00'
  · rw [if_pos hnul]
  rw [if_neg hnul]
  by_cases hs1 : jsStartsWith p "/" = true
  · rw [if_pos hs1]
  rw [if_neg hs1]
  by_cases hs2 : jsStartsWith p "\\" = true
  · rw [if_pos hs2]
  rw [if_neg hs2]
  by_cases hdr : hasWindowsDrivePrefix p = true
  · rw [if_pos hdr]
  rw [if_neg hdr]
  have hseg : ['.', '.'] ∈ (normalizeSlashes p.data).splitOn '/' := by
    rcases h with h | h | h | h | h
    · exact h
    · exact absurd h hs1
    · exact absurd h hs2
    · exact absurd (List.elem_eq_true_of_mem h) hnul
    · exact absurd h hdr
  rw [List.all_eq_false]
  exact ⟨['.', '.'], hseg, by decide⟩

/-- **C8 (amended, witness).** The theorem applied to the concrete
traversal path `"a/../b"`. -/
theorem isSafeWorktreePath_rejects_witness :
    isSafeWorktreePath "a/../b" = false :=
  isSafeWorktreePath_rejects "a/../b" (Or.inl (by decide))

/-! ### Rebase state machine -/

inductive RebaseStatus where
  | active
  | completed
  | aborted
  deriving DecidableEq, Repr

structure RebaseState where
  originalHead : String
  onto : String
  steps : List String
  currentIndex : Nat
  status : RebaseStatus
  deriving DecidableEq, Repr

/-- `startRebaseState(originalHead, onto, steps)`. -/
def startRebaseState (originalHead onto : String) (steps : List String) :
    RebaseState :=
  { originalHead := originalHead, onto := onto, steps := steps,
    currentIndex := 0, status := .active }

/-- `continueRebaseState(state)`: non-active states are returned
unchanged; otherwise advance `currentIndex`, completing when it
reaches `steps.length`. -/
def continueRebaseState (state : RebaseState) : RebaseState :=
  if state.status ≠ .active then state
  else
    let nextIndex := state.currentIndex + 1
    let completed := nextIndex ≥ state.steps.length
    { state with
        currentIndex := nextIndex,
        status := if completed then .completed else .active }

/-- `abortRebaseState(state)`: unconditionally set the status to
aborted, keeping every other field. -/
def abortRebaseState (state : RebaseState) : RebaseState :=
  { state with status := .aborted }

/-- **C5 (counterexample).** A completed rebase state is not stable
under `abortRebaseState`: aborting it changes its status to aborted. -/
theorem abortRebaseState_completed_counterexample :
    abortRebaseState
        ⟨"h", "o", ["s1"], 1, .completed⟩ ≠
      (⟨"h", "o", ["s1"], 1, .completed⟩ : RebaseState) := by
  decide

/-- **C5 (amended).** Terminal rebase states are stable under
`continueRebaseState`, and an aborted state is stable under
`abortRebaseState`; but `abortRebaseState` moves a completed state to
aborted (keeping every other field). -/
theorem rebase_terminal_stability :
    (∀ s : RebaseState, s.status ≠ .active → continueRebaseState s = s) ∧
    (∀ s : RebaseState, s.status = .aborted → abortRebaseState s = s) ∧
    (∀ s : RebaseState, (abortRebaseState s).status = .aborted ∧
      (abortRebaseState s).originalHead = s.originalHead ∧
      (abortRebaseState s).onto = s.onto ∧
      (abortRebaseState s).steps = s.steps ∧
      (abortRebaseState s).currentIndex = s.currentIndex) := by
  refine ⟨?_, ?_, ?_⟩
  · intro s hs
    unfold continueRebaseState
    rw [if_pos hs]
  · intro s hs
    unfold abortRebaseState
    cases s
    simp_all
  · intro s
    unfold abortRebaseState
    exact ⟨rfl, rfl, rfl, rfl, rfl⟩

/-- **C5 (amended, witness).** The amended theorem applied to concrete
terminal states. -/
theorem rebase_terminal_stability_witness :
    continueRebaseState ⟨"h", "o", ["s1"], 1, .completed⟩ =
      (⟨"h", "o", ["s1"], 1, .completed⟩ : RebaseState) ∧
    abortRebaseState ⟨"h", "o", [], 0, .aborted⟩ =
      (⟨"h", "o", [], 0, .aborted⟩ : RebaseState) :=
  ⟨rebase_terminal_stability.1 _ (by decide),
    rebase_terminal_stability.2.1 _ rfl⟩

/-! ### Patch replay (`replay`, `validateReplaySteps`,
`replayCompleted`, `replayConflict`) -/

/-- A replay step as supplied by callers (`reverse` optional). -/
structure ReplayStep where
  patchText : String
  reverse : Option Bool
  deriving DecidableEq, Repr

/-- A replay step after validation normalized `reverse` to a boolean. -/
structure NormReplayStep where
  patchText : String
  reverse : Bool
  deriving DecidableEq, Repr

inductive ReplayStatus where
  | completed
  | conflict
  deriving DecidableEq, Repr

structure ReplayResult where
  status : ReplayStatus
  appliedPaths : List String
  failedStep : Option Nat
  deriving DecidableEq, Repr

inductive ReplayValidation where
  | ok (steps : List NormReplayStep)
  | invalid (reason : String)
  deriving DecidableEq, Repr

/-- The per-step loop of `validateReplaySteps`: reject a step whose
patch text trims to the empty string, reporting its index; otherwise
normalize `reverse` to `reverse === true`. -/
def validateReplayGo : List ReplayStep → Nat → ReplayValidation
  | [], _ => .ok []
  | s :: rest, index =>
      if (jsTrim s.patchText).length = 0 then
        .invalid ("replay patch text invalid " ++ toString index)
      else
        match validateReplayGo rest (index + 1) with
        | .invalid reason => .invalid reason
        | .ok ns =>
            .ok ({ patchText := s.patchText,
                   reverse := s.reverse = some true } :: ns)

/-- `validateReplaySteps(steps)`: an empty list is invalid, otherwise
each step is checked and normalized in order. -/
def validateReplaySteps (steps : List ReplayStep) : ReplayValidation :=
  if steps.isEmpty then .invalid "replay steps are empty"
  else validateReplayGo steps 0

/-- `replayCompleted(appliedPaths)`. -/
def replayCompleted (appliedPaths : List String) : ReplayResult :=
  { status := .completed, appliedPaths := appliedPaths, failedStep := none }

/-- `replayConflict(appliedPaths, failedStep)`. -/
def replayConflict (appliedPaths : List String) (failedStep : Nat) :
    ReplayResult :=
  { status := .conflict, appliedPaths := appliedPaths,
    failedStep := some failedStep }

/-- The `for` loop of `replay`, parameterized by the outcome of
`this.applyPatch` for the step at each index (`some path` = applied at
that worktree path, `none` = rejected); the patch/worktree machinery
behind `applyPatch` is external to this model. -/
def replayLoop (applyPatch : Nat → NormReplayStep → Option String) :
    List NormReplayStep → Nat → List String → ReplayResult
  | [], _, appliedPaths => replayCompleted appliedPaths
  | step :: rest, index, appliedPaths =>
      match applyPatch index step with
      | none => replayConflict appliedPaths index
      | some path =>
          replayLoop applyPatch rest (index + 1) (appliedPaths ++ [path])

/-- `replay(steps)`: validate, then apply each step in order, stopping
at the first failure. -/
def replay (applyPatch : Nat → NormReplayStep → Option String)
    (steps : List ReplayStep) : Except GitError ReplayResult :=
  match validateReplaySteps steps with
  | .invalid _ => .error ⟨"replay steps invalid", .INVALID_ARGUMENT⟩
  | .ok normalized => .ok (replayLoop applyPatch normalized 0 [])

theorem validateReplayGo_length (l : List ReplayStep) (i : Nat)
    (ns : List NormReplayStep) (h : validateReplayGo l i = .ok ns) :
    ns.length = l.length := by
  induction l generalizing i ns with
  | nil =>
      unfold validateReplayGo at h
      cases h
      rfl
  | cons s rest ih =>
      unfold validateReplayGo at h
      by_cases hts : (jsTrim s.patchText).length = 0
      · rw [if_pos hts] at h
        cases h
      · rw [if_neg hts] at h
        cases hrec : validateReplayGo rest (i + 1) with
        | invalid reason => rw [hrec] at h; cases h
        | ok ns' =>
            rw [hrec] at h
            cases h
            simp [ih (i + 1) ns' hrec]

theorem replayLoop_all_applied
    (applyPatch : Nat → NormReplayStep → Option String)
    (l : List NormReplayStep) (i : Nat) (acc : List String)
    (h : ∀ j st, l[j]? = some st → (applyPatch (i + j) st).isSome) :
    (replayLoop applyPatch l i acc).status = .completed ∧
    (replayLoop applyPatch l i acc).appliedPaths.length =
      acc.length + l.length ∧
    (replayLoop applyPatch l i acc).failedStep = none := by
  induction l generalizing i acc with
  | nil => simp [replayLoop, replayCompleted]
  | cons st rest ih =>
      have h0 := h 0 st (by simp)
      obtain ⟨path, hpath⟩ := Option.isSome_iff_exists.mp h0
      unfold replayLoop
      simp only [Nat.add_zero] at hpath
      rw [hpath]
      have hrest : ∀ j stj, rest[j]? = some stj →
          (applyPatch (i + 1 + j) stj).isSome := by
        intro j stj hj
        have := h (j + 1) stj (by simpa using hj)
        simpa [Nat.add_assoc, Nat.add_comm 1 j] using this
      have := ih (i + 1) (acc ++ [path]) hrest
      simpa [List.length_append, Nat.add_assoc, Nat.add_comm 1] using this

theorem replayLoop_first_failure
    (applyPatch : Nat → NormReplayStep → Option String)
    (l : List NormReplayStep) (i : Nat) (acc : List String) (k : Nat)
    (st : NormReplayStep) (hk : l[k]? = some st)
    (hfail : applyPatch (i + k) st = none)
    (hbefore : ∀ j stj, j < k → l[j]? = some stj →
      (applyPatch (i + j) stj).isSome) :
    (replayLoop applyPatch l i acc).status = .conflict ∧
    (replayLoop applyPatch l i acc).failedStep = some (i + k) ∧
    (replayLoop applyPatch l i acc).appliedPaths.length =
      acc.length + k := by
  induction l generalizing i acc k with
  | nil => simp at hk
  | cons st0 rest ih =>
      cases k with
      | zero =>
          simp only [List.getElem?_cons_zero, Option.some_inj] at hk
          subst hk
          unfold replayLoop
          simp only [Nat.add_zero] at hfail
          rw [hfail]
          simp [replayConflict]
      | succ k' =>
          have h0 := hbefore 0 st0 (by omega) (by simp)
          obtain ⟨path, hpath⟩ := Option.isSome_iff_exists.mp h0
          unfold replayLoop
          simp only [Nat.add_zero] at hpath
          rw [hpath]
          have hk' : rest[k']? = some st := by simpa using hk
          have hfail' : applyPatch (i + 1 + k') st = none := by
            rw [show i + 1 + k' = i + (k' + 1) by omega]
            exact hfail
          have hbefore' : ∀ j stj, j < k' → rest[j]? = some stj →
              (applyPatch (i + 1 + j) stj).isSome := by
            intro j stj hj hjs
            have := hbefore (j + 1) stj (by omega) (by simpa using hjs)
            simpa [show i + 1 + j = i + (j + 1) by omega] using this
          have := ih (i + 1) (acc ++ [path]) k' hk' hfail' hbefore'
          constructor
          · exact this.1
          constructor
          · rw [this.2.1]
            congr 1
            omega
          · rw [this.2.2]
            simp only [List.length_append, List.length_singleton]
            omega

/-- **C4.** For every valid (hence non-empty) step list: on full
success `replay` returns status completed with as many applied paths
as steps and a null `failedStep`; if some step fails, with all steps
before the first failing index `k` succeeding, `replay` returns
status conflict with `failedStep = k` and exactly `k` applied
paths. -/
theorem replay_bookkeeping
    (applyPatch : Nat → NormReplayStep → Option String)
    (steps : List ReplayStep) (normalized : List NormReplayStep)
    (hv : validateReplaySteps steps = .ok normalized) :
    steps ≠ [] ∧
    ((∀ j st, normalized[j]? = some st → (applyPatch j st).isSome) →
      ∃ r, replay applyPatch steps = .ok r ∧ r.status = .completed ∧
        r.appliedPaths.length = steps.length ∧ r.failedStep = none) ∧
    (∀ k st, normalized[k]? = some st → applyPatch k st = none →
      (∀ j stj, j < k → normalized[j]? = some stj →
        (applyPatch j stj).isSome) →
      ∃ r, replay applyPatch steps = .ok r ∧ r.status = .conflict ∧
        r.failedStep = some k ∧ r.appliedPaths.length = k) := by
  have hne : steps ≠ [] := by
    intro hcontra
    subst hcontra
    unfold validateReplaySteps at hv
    simp at hv
  have hgo : validateReplayGo steps 0 = .ok normalized := by
    unfold validateReplaySteps at hv
    rwa [if_neg (by simpa using hne)] at hv
  have hlen : normalized.length = steps.length :=
    validateReplayGo_length steps 0 normalized hgo
  refine ⟨hne, ?_, ?_⟩
  · intro hall
    refine ⟨replayLoop applyPatch normalized 0 [], ?_, ?_⟩
    · unfold replay validateReplaySteps
      rw [if_neg (by simpa using hne), hgo]
    · have := replayLoop_all_applied applyPatch normalized 0 []
        (by intro j st hj; simpa using hall j st hj)
      exact ⟨this.1, by rw [this.2.1]; simpa using hlen, this.2.2⟩
  · intro k st hk hfail hbefore
    refine ⟨replayLoop applyPatch normalized 0 [], ?_, ?_⟩
    · unfold replay validateReplaySteps
      rw [if_neg (by simpa using hne), hgo]
    · have := replayLoop_first_failure applyPatch normalized 0 [] k st hk
        (by simpa using hfail)
        (by intro j stj hj hjs; simpa using hbefore j stj hj hjs)
      exact ⟨this.1, by simpa using this.2.1, by simpa using this.2.2⟩

/-- **C4 (witness).** The theorem applied to a concrete two-step list
whose second step fails: the replay stops in conflict with one
applied path and `failedStep = 1`. -/
theorem replay_bookkeeping_witness :
    ∃ r, replay
        (fun i _ => if i = 0 then some "a" else none)
        [⟨"p1", none⟩, ⟨"p2", none⟩] = .ok r ∧
      r.status = .conflict ∧ r.failedStep = some 1 ∧
      r.appliedPaths.length = 1 := by
  exact (replay_bookkeeping (fun i _ => if i = 0 then some "a" else none)
    [⟨"p1", none⟩, ⟨"p2", none⟩]
    [⟨"p1", false⟩, ⟨"p2", false⟩] (by rfl)).2.2 1 ⟨"p2", false⟩
    (by rfl) (by rfl)
    (by
      intro j stj hj hjs
      interval_cases j
      simp_all)

/-! ### Reference store (`resolveRef`, `updateRef`, `deleteRef`) and
receive-pack CAS update (`receivePackUpdate`) -/

/-- `/^[0-9a-f]{40}$|^[0-9a-f]{64}$/` on a single character. -/
def isLowerHexChar (c : Char) : Bool :=
  (48 ≤ c.toNat && c.toNat ≤ 57) || (97 ≤ c.toNat && c.toNat ≤ 102)

/-- `isObjectId(value)`: a lowercase hex string of length 40 or 64. -/
def isObjectId (value : String) : Bool :=
  (value.length == 40 || value.length == 64) &&
    value.data.all isLowerHexChar

/-- `normalizeRefName(refName)`: trim, then prefix `refs/` unless
already present. -/
def normalizeRefName (refName : String) : String :=
  let trimmed := jsTrim refName
  if jsStartsWith trimmed "refs/" then trimmed else "refs/" ++ trimmed

/-- The all-zero OID of a given length (`"0".repeat(len)`). -/
def zeroOid (len : Nat) : String :=
  String.mk (List.replicate len '0')

/-- The reference store's on-disk state: loose ref files (normalized
name → raw file content), the parsed `packed-refs` map, and the
reflog as a list of appended entries `(refName, oldOid, newOid,
message)`. -/
structure RefStore where
  loose : List (String × String)
  packed : List (String × String)
  reflog : List (String × String × String × String)
  deriving DecidableEq, Repr

/-- `resolveRef(refName)`: the trimmed loose file content when it is a
valid OID, else the `packed-refs` entry, else null. -/
def resolveRef (s : RefStore) (refName : String) : Option String :=
  let n := normalizeRefName refName
  match alGet s.loose n with
  | some content =>
      let v := jsTrim content
      if isObjectId v then some v else alGet s.packed n
  | none => alGet s.packed n

/-- `updateRef(refName, oid, message)`: validate the OID, write
`oid + "\n"` to the loose file, and append a reflog entry carrying the
previous resolution (zero OID when absent). -/
def updateRef (s : RefStore) (refName oid message : String) :
    Except GitError RefStore :=
  if ¬isObjectId oid then
    .error ⟨"invalid object id", .INVALID_ARGUMENT⟩
  else
    let n := normalizeRefName refName
    let oldOid := (resolveRef s n).getD (zeroOid oid.length)
    .ok { loose := alSet s.loose n (oid ++ "\n"),
          packed := s.packed,
          reflog := s.reflog ++ [(n, oldOid, oid, message)] }

/-- `deleteRef(refName, message)`: fail `NOT_FOUND` when the ref does
not resolve; otherwise remove the loose file, drop the `packed-refs`
entry, and append a reflog entry with the zero OID as the new
value. -/
def deleteRef (s : RefStore) (refName message : String) :
    Except GitError RefStore :=
  let n := normalizeRefName refName
  match resolveRef s n with
  | none => .error ⟨"reference not found", .NOT_FOUND⟩
  | some oldOid =>
      .ok { loose := alRemove s.loose n,
            packed := alRemove s.packed n,
            reflog := s.reflog ++ [(n, oldOid, zeroOid oldOid.length,
              message)] }

theorem head?_dropWhile_not {p : Char → Bool} (l : List Char) :
    ∀ c, (l.dropWhile p).head? = some c → p c = false := by
  induction l with
  | nil => intro c h; simp [List.dropWhile] at h
  | cons a rest ih =>
      intro c h
      rw [List.dropWhile_cons] at h
      by_cases hpa : p a = true
      · rw [if_pos hpa] at h
        exact ih c h
      · rw [if_neg hpa] at h
        simp only [List.head?_cons, Option.some_inj] at h
        subst h
        simpa using hpa

theorem dropWhile_eq_self_of_head {p : Char → Bool} (l : List Char)
    (h : ∀ c, l.head? = some c → p c = false) : l.dropWhile p = l := by
  cases l with
  | nil => rfl
  | cons a rest =>
      rw [List.dropWhile_cons, if_neg]
      simp [h a rfl]

theorem trimChars_eq_self (l : List Char)
    (hh : ∀ c, l.head? = some c → jsIsWhitespace c = false)
    (hl : ∀ c, l.getLast? = some c → jsIsWhitespace c = false) :
    trimChars l = l := by
  unfold trimChars
  rw [dropWhile_eq_self_of_head l hh]
  rw [dropWhile_eq_self_of_head l.reverse
    (fun c hc => hl c (by rwa [List.head?_reverse] at hc))]
  exact List.reverse_reverse l

theorem trimChars_head_not_ws (l : List Char) :
    ∀ c, (trimChars l).head? = some c → jsIsWhitespace c = false := by
  intro c h
  unfold trimChars at h
  rw [List.head?_reverse] at h
  set l1 := l.dropWhile jsIsWhitespace with hl1
  set l2 := l1.reverse.dropWhile jsIsWhitespace with hl2
  obtain ⟨t, ht⟩ := List.dropWhile_suffix
    (l := l1.reverse) (p := jsIsWhitespace)
  have hl2ne : l2 ≠ [] := by
    intro hcontra
    rw [hcontra] at h
    simp at h
  rw [← hl2] at ht
  have : l1.reverse.getLast? = l2.getLast? := by
    rw [← ht, List.getLast?_append]
    cases hg : l2.getLast? with
    | some x => simp
    | none =>
        exfalso
        exact hl2ne (List.getLast?_eq_none_iff.mp hg)
  rw [← this] at h
  rw [List.getLast?_reverse] at h
  exact head?_dropWhile_not l c h

theorem trimChars_getLast_not_ws (l : List Char) :
    ∀ c, (trimChars l).getLast? = some c → jsIsWhitespace c = false := by
  intro c h
  unfold trimChars at h
  rw [List.getLast?_reverse] at h
  exact head?_dropWhile_not _ c h

/-- `jsTrim` is idempotent. -/
theorem jsTrim_idem (s : String) : jsTrim (jsTrim s) = jsTrim s := by
  unfold jsTrim
  congr 1
  exact trimChars_eq_self _ (trimChars_head_not_ws s.data)
    (trimChars_getLast_not_ws s.data)

theorem isLowerHexChar_not_ws (c : Char) (h : isLowerHexChar c = true) :
    jsIsWhitespace c = false := by
  unfold isLowerHexChar at h
  unfold jsIsWhitespace
  simp only [Bool.or_eq_true, Bool.and_eq_true, decide_eq_true_eq] at h
  simp only [Bool.or_eq_false_iff, decide_eq_false_iff_not]
  omega

theorem isObjectId_length (v : String) (h : isObjectId v = true) :
    v.data.length = 40 ∨ v.data.length = 64 := by
  unfold isObjectId at h
  simp only [Bool.and_eq_true, Bool.or_eq_true, beq_iff_eq] at h
  have := h.1
  unfold String.length at this
  simpa using this

theorem isObjectId_all_hex (v : String) (h : isObjectId v = true) :
    ∀ c ∈ v.data, isLowerHexChar c = true := by
  unfold isObjectId at h
  simp only [Bool.and_eq_true, List.all_eq_true] at h
  exact h.2

/-- Trimming `oid + "\n"` for a valid OID gives back the OID. -/
theorem jsTrim_oid_newline (oid : String) (h : isObjectId oid = true) :
    jsTrim (oid ++ "\n") = oid := by
  have hlen := isObjectId_length oid h
  have hhex := isObjectId_all_hex oid h
  have hne : oid.data ≠ [] := by
    intro hcontra
    rw [hcontra] at hlen
    simp at hlen
  unfold jsTrim
  rw [String.data_append]
  have hnl : ("\n").data = ['\n'] := rfl
  rw [hnl]
  have hdrop1 : (oid.data ++ ['\n']).dropWhile jsIsWhitespace =
      oid.data ++ ['\n'] := by
    apply dropWhile_eq_self_of_head
    intro c hc
    cases hd : oid.data with
    | nil => exact absurd hd hne
    | cons a rest =>
        rw [hd] at hc
        simp only [List.cons_append, List.head?_cons,
          Option.some_inj] at hc
        have hcm : c ∈ oid.data := by
          rw [hd, ← hc]
          exact List.mem_cons_self _ _
        exact isLowerHexChar_not_ws c (hhex c hcm)
  unfold trimChars
  rw [hdrop1, List.reverse_append]
  have hrev : (['\n'] : List Char).reverse = ['\n'] := rfl
  rw [hrev]
  have hnlws : jsIsWhitespace '\n' = true := by decide
  have : (['\n'] ++ oid.data.reverse).dropWhile jsIsWhitespace =
      oid.data.reverse.dropWhile jsIsWhitespace := by
    simp only [List.singleton_append, List.dropWhile_cons, hnlws,
      if_true]
  rw [this]
  rw [dropWhile_eq_self_of_head _ (fun c hc => by
    rw [List.head?_reverse] at hc
    have hcm : c ∈ oid.data := List.mem_of_mem_getLast? hc
    exact isLowerHexChar_not_ws c (hhex c hcm))]
  cases oid
  simp

/-- `toLowerCase` fixes valid (already lowercase) OIDs. -/
theorem jsToLower_objectId (v : String) (h : isObjectId v = true) :
    jsToLower v = v := by
  have hhex := isObjectId_all_hex v h
  unfold jsToLower
  have hfix : ∀ c ∈ v.data, Char.toLower c = c := by
    intro c hc
    have := hhex c hc
    unfold isLowerHexChar at this
    simp only [Bool.or_eq_true, Bool.and_eq_true,
      decide_eq_true_eq] at this
    unfold Char.toLower
    simp only []
    rw [if_neg (by omega)]
  have hmap : ∀ l : List Char, (∀ c ∈ l, Char.toLower c = c) →
      l.map Char.toLower = l := by
    intro l
    induction l with
    | nil => intro _; rfl
    | cons a rest ih =>
        intro hall
        simp only [List.map_cons, hall a (by simp)]
        rw [ih (fun c hc => hall c (by simp [hc]))]
  rw [hmap v.data hfix]

/-- `normalizeRefName` is idempotent. -/
theorem normalizeRefName_idem (r : String) :
    normalizeRefName (normalizeRefName r) = normalizeRefName r := by
  unfold normalizeRefName
  by_cases hpre : jsStartsWith (jsTrim r) "refs/" = true
  · rw [if_pos hpre]
    rw [jsTrim_idem, if_pos hpre]
  · rw [if_neg hpre]
    have hdata : ("refs/" ++ jsTrim r).data =
        'r' :: 'e' :: 'f' :: 's' :: '/' :: (jsTrim r).data := by
      rw [String.data_append]
      rfl
    have htrim : jsTrim ("refs/" ++ jsTrim r) = "refs/" ++ jsTrim r := by
      apply String.ext
      show trimChars (("refs/" ++ jsTrim r).data) =
        ("refs/" ++ jsTrim r).data
      rw [hdata]
      rw [trimChars_eq_self]
      · intro c hc
        simp only [List.head?_cons, Option.some_inj] at hc
        subst hc
        decide
      · intro c hc
        rcases hlast : (jsTrim r).data.getLast? with _ | d
        · have : (jsTrim r).data = [] :=
            List.getLast?_eq_none_iff.mp hlast
          rw [this] at hc
          simp only [List.getLast?_cons, List.getLast?_nil] at hc
          simp at hc
          subst hc
          decide
        · have : ('r' :: 'e' :: 'f' :: 's' :: '/' ::
              (jsTrim r).data).getLast? = some d := by
            have hne : (jsTrim r).data ≠ [] := by
              intro hcontra
              rw [hcontra] at hlast
              simp at hlast
            rw [show ('r' :: 'e' :: 'f' :: 's' :: '/' ::
                (jsTrim r).data) =
              ['r', 'e', 'f', 's', '/'] ++ (jsTrim r).data from rfl]
            rw [List.getLast?_append, hlast]
            rfl
          rw [this] at hc
          simp only [Option.some_inj] at hc
          rw [← hc]
          exact trimChars_getLast_not_ws r.data d
            (by
              unfold jsTrim at hlast
              simpa using hlast)
    rw [htrim]
    rw [if_pos]
    unfold jsStartsWith
    rw [String.data_append]
    exact List.isPrefixOf_iff_prefix.mpr (List.prefix_append _ _)

/-- Resolving right after `updateRef` yields the new OID. -/
theorem resolveRef_updateRef (s : RefStore) (rn q oid msg : String)
    (s' : RefStore) (hoid : isObjectId oid = true)
    (hq : normalizeRefName q = normalizeRefName rn)
    (h : updateRef s rn oid msg = .ok s') :
    resolveRef s' q = some oid := by
  unfold updateRef at h
  rw [if_neg (by simp [hoid])] at h
  simp only [Except.ok.injEq] at h
  subst h
  unfold resolveRef
  simp only []
  rw [hq, alGet_alSet_self]
  simp only []
  rw [jsTrim_oid_newline oid hoid]
  rw [if_pos hoid]

/-- Resolving right after `deleteRef` yields nothing. -/
theorem resolveRef_deleteRef (s : RefStore) (rn q msg : String)
    (s' : RefStore)
    (hq : normalizeRefName q = normalizeRefName rn)
    (h : deleteRef s rn msg = .ok s') :
    resolveRef s' q = none := by
  unfold deleteRef at h
  simp only [] at h
  cases hres : resolveRef s (normalizeRefName rn) with
  | none => rw [hres] at h; simp at h
  | some oldOid =>
      rw [hres] at h
      simp only [Except.ok.injEq] at h
      subst h
      unfold resolveRef
      simp only []
      rw [hq, alGet_alRemove_self, alGet_alRemove_self]

structure ReceivePackRefUpdate where
  refName : String
  oldOid : String
  newOid : String
  deriving DecidableEq, Repr

/-- `receivePackUpdate(update, message)`: validate both OIDs and their
length parity, normalize, then compare-and-swap — the current
resolution (zero OID when absent) must equal `oldOid`, else
`LOCK_CONFLICT`; a zero `newOid` deletes (skipping the delete when the
ref is already absent), anything else writes through `updateRef`.
Returned alongside the `Except` is the store after the call — errors
are thrown before any mutation, so on error it is the input store. -/
def receivePackUpdate (s : RefStore) (update : ReceivePackRefUpdate)
    (message : String) :
    Except GitError (String × String) × RefStore :=
  if ¬(isObjectId update.oldOid ∧ isObjectId update.newOid) then
    (.error ⟨"receive-pack oid invalid", .INVALID_ARGUMENT⟩, s)
  else if update.oldOid.length ≠ update.newOid.length then
    (.error ⟨"receive-pack oid length mismatch", .INVALID_ARGUMENT⟩, s)
  else
    let normalizedRefName := normalizeRefName update.refName
    let normalizedOldOid := jsToLower update.oldOid
    let normalizedNewOid := jsToLower update.newOid
    let zero := zeroOid normalizedNewOid.length
    let currentOid := resolveRef s normalizedRefName
    let expectedCurrentOid := currentOid.getD zero
    if expectedCurrentOid ≠ normalizedOldOid then
      (.error ⟨"receive-pack old oid mismatch", .LOCK_CONFLICT⟩, s)
    else if normalizedNewOid = zero then
      match currentOid with
      | some _ =>
          match deleteRef s normalizedRefName message with
          | .ok s' => (.ok (normalizedRefName, normalizedNewOid), s')
          | .error e => (.error e, s)
      | none => (.ok (normalizedRefName, normalizedNewOid), s)
    else
      match updateRef s normalizedRefName normalizedNewOid message with
      | .ok s' => (.ok (normalizedRefName, normalizedNewOid), s')
      | .error e => (.error e, s)

/-- Reduction of `receivePackUpdate` once both OIDs are valid and of
equal length (valid OIDs are already lowercase, so the source's
`toLowerCase` is the identity on them). -/
theorem receivePackUpdate_reduce (s : RefStore) (r old new msg : String)
    (hold : isObjectId old = true) (hnew : isObjectId new = true)
    (hlen : old.length = new.length) :
    receivePackUpdate s ⟨r, old, new⟩ msg =
      (if (resolveRef s (normalizeRefName r)).getD (zeroOid new.length)
          ≠ old then
        (.error ⟨"receive-pack old oid mismatch", .LOCK_CONFLICT⟩, s)
      else if new = zeroOid new.length then
        match resolveRef s (normalizeRefName r) with
        | some _ =>
            (match deleteRef s (normalizeRefName r) msg with
             | .ok s' => (.ok (normalizeRefName r, new), s')
             | .error e => (.error e, s))
        | none => (.ok (normalizeRefName r, new), s)
      else
        match updateRef s (normalizeRefName r) new msg with
        | .ok s' => (.ok (normalizeRefName r, new), s')
        | .error e => (.error e, s)) := by
  unfold receivePackUpdate
  simp only []
  rw [if_neg (fun hc => hc ⟨hold, hnew⟩)]
  rw [if_neg (fun hc => hc hlen)]
  rw [jsToLower_objectId old hold, jsToLower_objectId new hnew]

theorem updateRef_ok (s : RefStore) (rn oid msg : String)
    (hoid : isObjectId oid = true) :
    ∃ s', updateRef s rn oid msg = .ok s' := by
  unfold updateRef
  rw [if_neg (by simp [hoid])]
  exact ⟨_, rfl⟩

theorem deleteRef_ok (s : RefStore) (r msg : String) (c : String)
    (hcur : resolveRef s (normalizeRefName r) = some c) :
    ∃ s', deleteRef s (normalizeRefName r) msg = .ok s' := by
  unfold deleteRef
  simp only []
  rw [normalizeRefName_idem r, hcur]
  exact ⟨_, rfl⟩

/-- **C1.** For a ref name `r` and valid equal-length lowercase OIDs
`old`, `new`: `receivePackUpdate` succeeds iff the current resolution
of the normalized ref (the all-zero OID when absent) equals `old`; on
mismatch it fails with `LOCK_CONFLICT` leaving the store unchanged;
and after a successful update from `old` to `new ≠ old`, repeating the
identical call fails with `LOCK_CONFLICT`. -/
theorem receivePackUpdate_cas (s : RefStore) (r old new msg : String)
    (hold : isObjectId old = true) (hnew : isObjectId new = true)
    (hlen : old.length = new.length) :
    ((receivePackUpdate s ⟨r, old, new⟩ msg).1.isOk = true ↔
      (resolveRef s (normalizeRefName r)).getD (zeroOid new.length)
        = old) ∧
    ((resolveRef s (normalizeRefName r)).getD (zeroOid new.length)
        ≠ old →
      receivePackUpdate s ⟨r, old, new⟩ msg =
        (.error ⟨"receive-pack old oid mismatch", .LOCK_CONFLICT⟩, s)) ∧
    ((resolveRef s (normalizeRefName r)).getD (zeroOid new.length)
        = old →
      (receivePackUpdate s ⟨r, old, new⟩ msg).1 =
        .ok (normalizeRefName r, new)) ∧
    ((resolveRef s (normalizeRefName r)).getD (zeroOid new.length)
        = old → old ≠ new →
      (receivePackUpdate (receivePackUpdate s ⟨r, old, new⟩ msg).2
          ⟨r, old, new⟩ msg).1 =
        .error ⟨"receive-pack old oid mismatch", .LOCK_CONFLICT⟩) := by
  have hred := receivePackUpdate_reduce s r old new msg hold hnew hlen
  by_cases hc : (resolveRef s (normalizeRefName r)).getD
      (zeroOid new.length) = old
  · -- CAS match: the call succeeds.
    rw [if_neg (fun hne => hne hc)] at hred
    have hA : ∃ s₂, receivePackUpdate s ⟨r, old, new⟩ msg =
        (.ok (normalizeRefName r, new), s₂) ∧
        (old ≠ new →
          (resolveRef s₂ (normalizeRefName r)).getD (zeroOid new.length)
            ≠ old) := by
      by_cases hz : new = zeroOid new.length
      · rw [if_pos hz] at hred
        cases hcur : resolveRef s (normalizeRefName r) with
        | none =>
            rw [hcur] at hred
            refine ⟨s, hred, fun hnedup => absurd ?_ hnedup⟩
            rw [hcur] at hc
            simp only [Option.getD_none] at hc
            exact hc.symm.trans hz.symm
        | some c =>
            rw [hcur] at hred
            obtain ⟨s'', hdel⟩ := deleteRef_ok s r msg c hcur
            rw [hdel] at hred
            refine ⟨s'', hred, fun hnedup => ?_⟩
            have hres2 : resolveRef s'' (normalizeRefName r) = none :=
              resolveRef_deleteRef s (normalizeRefName r)
                (normalizeRefName r) msg s'' rfl hdel
            rw [hres2]
            simp only [Option.getD_none]
            intro hcontra
            exact hnedup (hcontra.symm.trans hz.symm)
      · rw [if_neg hz] at hred
        obtain ⟨s', hupd⟩ :=
          updateRef_ok s (normalizeRefName r) new msg hnew
        rw [hupd] at hred
        refine ⟨s', hred, fun hnedup => ?_⟩
        have hres2 : resolveRef s' (normalizeRefName r) = some new :=
          resolveRef_updateRef s (normalizeRefName r)
            (normalizeRefName r) new msg s' hnew rfl hupd
        rw [hres2]
        simp only [Option.getD_some]
        exact fun hcontra => hnedup hcontra.symm
    obtain ⟨s₂, hcall, hmis⟩ := hA
    refine ⟨?_, fun hne => absurd hc hne, fun _ => by rw [hcall],
      fun _ hnedup => ?_⟩
    · rw [hcall]
      exact ⟨fun _ => hc, fun _ => rfl⟩
    · have hne2 := hmis hnedup
      have hred2 := receivePackUpdate_reduce s₂ r old new msg
        hold hnew hlen
      rw [if_pos hne2] at hred2
      rw [hcall]
      show (receivePackUpdate s₂ ⟨r, old, new⟩ msg).1 = _
      rw [hred2]
  · -- CAS mismatch: LOCK_CONFLICT, store unchanged.
    rw [if_pos hc] at hred
    refine ⟨?_, fun _ => hred, fun hmatch => absurd hmatch hc,
      fun hmatch _ => absurd hmatch hc⟩
    constructor
    · intro hcontra
      rw [hred] at hcontra
      simp [Except.isOk, Except.toBool] at hcontra
    · intro hcontra
      exact absurd hcontra hc

/-- **C1 (witness).** The theorem applied to a concrete store mapping
`refs/heads/main` to the OID `a^40`: updating from `a^40` to `b^40`
succeeds, and repeating the identical call fails `LOCK_CONFLICT`. -/
theorem receivePackUpdate_cas_witness :
    letI X : String := String.mk (List.replicate 40 'a')
    letI Y : String := String.mk (List.replicate 40 'b')
    letI s : RefStore :=
      ⟨[("refs/heads/main", X ++ "\n")], [], []⟩
    (receivePackUpdate s ⟨"heads/main", X, Y⟩ "m").1 =
      .ok ("refs/heads/main", Y) ∧
    (receivePackUpdate (receivePackUpdate s ⟨"heads/main", X, Y⟩ "m").2
        ⟨"heads/main", X, Y⟩ "m").1 =
      .error ⟨"receive-pack old oid mismatch", .LOCK_CONFLICT⟩ := by
  have h := receivePackUpdate_cas
    ⟨[("refs/heads/main",
        String.mk (List.replicate 40 'a') ++ "\n")], [], []⟩
    "heads/main" (String.mk (List.replicate 40 'a'))
    (String.mk (List.replicate 40 'b')) "m"
    (by decide) (by decide) (by decide)
  have hres : (resolveRef
      ⟨[("refs/heads/main",
          String.mk (List.replicate 40 'a') ++ "\n")], [], []⟩
      (normalizeRefName "heads/main")).getD
        (zeroOid (String.mk (List.replicate 40 'b')).length) =
      String.mk (List.replicate 40 'a') := by decide
  have hnorm : normalizeRefName "heads/main" = "refs/heads/main" := by
    decide
  refine ⟨?_, ?_⟩
  · have := h.2.2.1 hres
    rwa [hnorm] at this
  · exact h.2.2.2 hres (by decide)

theorem isObjectId_zeroOid (len : Nat) (hlen : len = 40 ∨ len = 64) :
    isObjectId (zeroOid len) = true := by
  unfold isObjectId zeroOid
  simp only [Bool.and_eq_true, Bool.or_eq_true, beq_iff_eq,
    List.all_eq_true]
  constructor
  · show (String.mk (List.replicate len '0')).length = 40 ∨
      (String.mk (List.replicate len '0')).length = 64
    have : (String.mk (List.replicate len '0')).length = len := by
      show (List.replicate len '0').length = len
      simp
    omega
  · intro c hc
    have := List.eq_of_mem_replicate hc
    subst this
    decide

theorem zeroOid_length (len : Nat) : (zeroOid len).length = len := by
  show (List.replicate len '0').length = len
  simp

/-- **C10.** When a ref does not resolve and `receivePackUpdate` is
called with both OIDs equal to the all-zero OID, the call succeeds,
returning the normalized name and the zero OID, and the store is
completely unchanged (no ref write, no deletion, no reflog append);
by contrast `deleteRef` on the same absent ref fails `NOT_FOUND`. -/
theorem receivePackUpdate_absent_zero (s : RefStore) (r msg : String)
    (len : Nat) (hlen : len = 40 ∨ len = 64)
    (habsent : resolveRef s (normalizeRefName r) = none) :
    receivePackUpdate s ⟨r, zeroOid len, zeroOid len⟩ msg =
      (.ok (normalizeRefName r, zeroOid len), s) ∧
    deleteRef s r msg = .error ⟨"reference not found", .NOT_FOUND⟩ := by
  have hzid := isObjectId_zeroOid len hlen
  have hred := receivePackUpdate_reduce s r (zeroOid len) (zeroOid len)
    msg hzid hzid rfl
  rw [habsent] at hred
  simp only [Option.getD_none, zeroOid_length] at hred
  rw [if_pos trivial] at hred
  rw [if_neg (fun hne => hne rfl)] at hred
  constructor
  · exact hred
  · unfold deleteRef
    simp only []
    rw [habsent]

/-- **C10 (witness).** The theorem applied to the empty store and the
ref `heads/main` with the 40-character zero OID. -/
theorem receivePackUpdate_absent_zero_witness :
    receivePackUpdate ⟨[], [], []⟩
        ⟨"heads/main", zeroOid 40, zeroOid 40⟩ "m" =
      (.ok ("refs/heads/main", zeroOid 40), ⟨[], [], []⟩) ∧
    deleteRef ⟨[], [], []⟩ "heads/main" "m" =
      .error ⟨"reference not found", .NOT_FOUND⟩ := by
  have h := receivePackUpdate_absent_zero ⟨[], [], []⟩ "heads/main" "m"
    40 (Or.inl rfl) (by decide)
  have hnorm : normalizeRefName "heads/main" = "refs/heads/main" := by
    decide
  constructor
  · rw [h.1, hnorm]
  · exact h.2

/-! ### Partial-clone state, promisor objects and backfill

The persisted `partial-codex.json` state is modelled already parsed:
`promisorObjects` payload entries are JSON numbers, modelled as `Int`
so that out-of-range values representable in the file are covered
(non-numeric deviations are outside the typed model). -/

structure PartialCloneState where
  filterSpec : Option String
  capabilities : List String
  promisorObjects : List (String × List Int)
  deriving DecidableEq, Repr

def defaultPartialCloneState : PartialCloneState :=
  { filterSpec := none, capabilities := [], promisorObjects := [] }

/-- `isValidPromisedPayload(value)`: every item is an integer in
0..255 (the array/integer shape itself is enforced by the type). -/
def isValidPromisedPayload (payload : List Int) : Bool :=
  payload.all (fun item => 0 ≤ item && item ≤ 255)

/-- `normalizePartialCloneState(value)`: reject the state when any
promisor payload is invalid. -/
def normalizePartialCloneState (persisted : PartialCloneState) :
    Option PartialCloneState :=
  if persisted.promisorObjects.all (fun e => isValidPromisedPayload e.2)
  then some persisted
  else none

/-- A repository's partial-clone related on-disk state: the optional
partial-clone state file (already parsed), the optional sparse
checkout state file (mode and raw persisted rules), the decoded index
entries, and the loose object store (OID → readable payload). -/
structure IndexEntryV2 where
  path : String
  oid : String
  mode : Nat
  deriving DecidableEq, Repr

inductive SparseCheckoutMode where
  | cone
  | pattern
  deriving DecidableEq, Repr

structure PartialRepo where
  partialClone : Option PartialCloneState
  sparse : Option (SparseCheckoutMode × List String)
  indexEntries : List IndexEntryV2
  looseObjects : List (String × List Int)
  deriving DecidableEq, Repr

/-- `readPartialCloneState`: default state when the file is absent,
else normalize-or-`INTEGRITY_ERROR`. -/
def readPartialCloneState (persisted : Option PartialCloneState) :
    Except GitError PartialCloneState :=
  match persisted with
  | none => .ok defaultPartialCloneState
  | some st =>
      match normalizePartialCloneState st with
      | none => .error ⟨"partial clone state malformed", .INTEGRITY_ERROR⟩
      | some n => .ok n

/-- `readObject(oid).catch(() => null)`: the payload of the loose
object stored at that OID, when present and readable. -/
def readObject (repo : PartialRepo) (oid : String) : Option (List Int) :=
  alGet repo.looseObjects oid

/-- `setPromisorObject(oid, payload)`: store the payload keyed by the
lowercased OID in the partial-clone state. -/
def setPromisorObject (repo : PartialRepo) (oid : String)
    (payload : List Int) : Except GitError PartialRepo :=
  if ¬isObjectId oid then
    .error ⟨"invalid object id", .INVALID_ARGUMENT⟩
  else
    match readPartialCloneState repo.partialClone with
    | .error e => .error e
    | .ok state =>
        let nextState : PartialCloneState :=
          { state with promisorObjects :=
              (alSet state.promisorObjects (jsToLower oid) payload) }
        .ok { repo with partialClone := some nextState }

/-- `resolvePromisedObject(oid)`: return the promisor payload when
present (rejecting empty or out-of-range payloads with
`INTEGRITY_ERROR`); when absent fall through to the loose store and
only then fail `INTEGRITY_ERROR`. -/
def resolvePromisedObject (repo : PartialRepo) (oid : String) :
    Except GitError (List Int) :=
  if ¬isObjectId oid then
    .error ⟨"invalid object id", .INVALID_ARGUMENT⟩
  else
    let normalizedOid := jsToLower oid
    match readPartialCloneState repo.partialClone with
    | .error e => .error e
    | .ok state =>
        match alGet state.promisorObjects normalizedOid with
        | none =>
            match readObject repo normalizedOid with
            | some hydrated => .ok hydrated
            | none => .error ⟨"promised object missing", .INTEGRITY_ERROR⟩
        | some promised =>
            if promised.length = 0 then
              .error ⟨"promised object malformed", .INTEGRITY_ERROR⟩
            else if ¬(promised.all (fun item => 0 ≤ item && item ≤ 255))
            then .error ⟨"promised object malformed", .INTEGRITY_ERROR⟩
            else .ok promised

theorem alSet_all {α : Type} (m : List (String × α)) (k : String)
    (v : α) (p : String × α → Bool) (hm : m.all p = true)
    (hv : p (k, v) = true) : (alSet m k v).all p = true := by
  induction m with
  | nil => simp [alSet, hv]
  | cons e rest ih =>
      simp only [List.all_cons, Bool.and_eq_true] at hm
      by_cases hk : e.1 = k
      · simp [alSet, hk, hv, hm.2]
      · simp only [alSet, hk, if_false, List.all_cons, Bool.and_eq_true]
        exact ⟨hm.1, ih hm.2⟩

theorem alSet_mem_self {α : Type} (m : List (String × α)) (k : String)
    (v : α) : (k, v) ∈ alSet m k v := by
  induction m with
  | nil => simp [alSet]
  | cons e rest ih =>
      by_cases hk : e.1 = k
      · simp [alSet, hk]
      · simp only [alSet, hk, if_false, List.mem_cons]
        exact Or.inr ih

theorem readPartialCloneState_valid (p : Option PartialCloneState)
    (st : PartialCloneState) (h : readPartialCloneState p = .ok st) :
    st.promisorObjects.all (fun e => isValidPromisedPayload e.2)
      = true := by
  cases p with
  | none =>
      unfold readPartialCloneState at h
      simp only [Except.ok.injEq] at h
      subst h
      rfl
  | some st0 =>
      unfold readPartialCloneState normalizePartialCloneState at h
      simp only [] at h
      by_cases hv : st0.promisorObjects.all
          (fun e => isValidPromisedPayload e.2) = true
      · rw [if_pos hv] at h
        simp only [Except.ok.injEq] at h
        subst h
        exact hv
      · rw [if_neg hv] at h
        simp at h

/-- **C6 (counterexample).** Storing the empty payload — an array of
integers each in 0..255, vacuously — via `setPromisorObject`, then
resolving it, fails with `INTEGRITY_ERROR` instead of returning the
empty byte sequence: `resolvePromisedObject` explicitly rejects empty
promisor payloads. -/
theorem resolvePromisedObject_empty_counterexample :
    isValidPromisedPayload [] = true ∧
    setPromisorObject ⟨none, none, [], []⟩
        (String.mk (List.replicate 40 'a')) [] =
      .ok ⟨some ⟨none, [],
        [(String.mk (List.replicate 40 'a'), [])]⟩, none, [], []⟩ ∧
    resolvePromisedObject
        ⟨some ⟨none, [],
          [(String.mk (List.replicate 40 'a'), [])]⟩, none, [], []⟩
        (String.mk (List.replicate 40 'a')) =
      .error ⟨"promised object malformed", .INTEGRITY_ERROR⟩ := by
  refine ⟨rfl, ?_, ?_⟩ <;> rfl

/-- **C6 (amended).** For an OID stored via `setPromisorObject`: a
non-empty payload of integers in 0..255 is returned exactly by
`resolvePromisedObject`; the empty payload — although shape-valid — is
rejected with `INTEGRITY_ERROR` (without consulting the loose store);
and a payload with an out-of-range entry makes the subsequent resolve
fail with `INTEGRITY_ERROR` already when loading the state. -/
theorem resolvePromisedObject_after_set (repo : PartialRepo)
    (oid : String) (payload : List Int) (s1 : PartialRepo)
    (hoid : isObjectId oid = true)
    (hset : setPromisorObject repo oid payload = .ok s1) :
    (payload ≠ [] → isValidPromisedPayload payload = true →
      resolvePromisedObject s1 oid = .ok payload) ∧
    (payload = [] →
      resolvePromisedObject s1 oid =
        .error ⟨"promised object malformed", .INTEGRITY_ERROR⟩) ∧
    (isValidPromisedPayload payload = false →
      resolvePromisedObject s1 oid =
        .error ⟨"partial clone state malformed", .INTEGRITY_ERROR⟩) := by
  unfold setPromisorObject at hset
  rw [if_neg (by simp [hoid])] at hset
  cases hrd : readPartialCloneState repo.partialClone with
  | error e => rw [hrd] at hset; cases hset
  | ok state =>
      rw [hrd] at hset
      simp only [Except.ok.injEq] at hset
      subst hset
      have hstv := readPartialCloneState_valid repo.partialClone
        state hrd
      have hresolve_state : ∀ hval : isValidPromisedPayload payload
          = true,
          readPartialCloneState (some
            { state with promisorObjects :=
                (alSet state.promisorObjects (jsToLower oid)
                  payload) }) =
          .ok { state with promisorObjects :=
                (alSet state.promisorObjects (jsToLower oid)
                  payload) } := by
        intro hval
        unfold readPartialCloneState normalizePartialCloneState
        simp only []
        rw [if_pos]
        exact alSet_all state.promisorObjects (jsToLower oid) payload
          _ hstv hval
      refine ⟨?_, ?_, ?_⟩
      · intro hne hval
        unfold resolvePromisedObject
        rw [if_neg (by simp [hoid])]
        simp only [hresolve_state hval, alGet_alSet_self]
        rw [if_neg (by
          simp only [List.length_eq_zero]
          exact hne)]
        rw [if_neg (by
          unfold isValidPromisedPayload at hval
          simp [hval])]
      · intro hempty
        subst hempty
        unfold resolvePromisedObject
        rw [if_neg (by simp [hoid])]
        simp only [hresolve_state rfl, alGet_alSet_self]
        simp
      · intro hinval
        unfold resolvePromisedObject
        rw [if_neg (by simp [hoid])]
        have hbad : readPartialCloneState (some
            { state with promisorObjects :=
                (alSet state.promisorObjects (jsToLower oid)
                  payload) }) =
            .error ⟨"partial clone state malformed",
              .INTEGRITY_ERROR⟩ := by
          unfold readPartialCloneState normalizePartialCloneState
          simp only []
          rw [if_neg]
          rw [Bool.not_eq_true, List.all_eq_false]
          refine ⟨(jsToLower oid, payload), alSet_mem_self _ _ _, ?_⟩
          simp [hinval]
        simp only [hbad]

/-- **C6 (amended, witness).** The amended theorem applied to a
concrete store and the one-byte payload `[7]`, and to the empty
payload. -/
theorem resolvePromisedObject_after_set_witness :
    resolvePromisedObject
        ⟨some ⟨none, [],
          [(String.mk (List.replicate 40 'a'), [7])]⟩, none, [], []⟩
        (String.mk (List.replicate 40 'a')) = .ok [7] := by
  have h := resolvePromisedObject_after_set ⟨none, none, [], []⟩
    (String.mk (List.replicate 40 'a')) [7]
    ⟨some ⟨none, [],
      [(String.mk (List.replicate 40 'a'), [7])]⟩, none, [], []⟩
    (by decide) (by rfl)
  exact h.1 (by decide) (by decide)

/-! ### Sparse-checkout rules (`src/core/sparse-checkout/rules.ts`) -/

/-- `.replace(/^\/+/, "")`. -/
def stripLeadingSlashes (l : List Char) : List Char :=
  l.dropWhile (fun c => c = '/')

/-- `.replace(/\/+$/, "")`. -/
def stripTrailingSlashes (l : List Char) : List Char :=
  (l.reverse.dropWhile (fun c => c = '/')).reverse

/-- `normalizeRule(rule)`: trim, normalize backslashes, reject the
empty rule, keep `"."`, strip surrounding slashes and enforce path
safety. -/
def normalizeRule (rule : String) : Except GitError String :=
  let trimmed := String.mk (normalizeSlashes (jsTrim rule).data)
  if trimmed.length = 0 then
    .error ⟨"sparse-checkout rule is empty", .GENERIC⟩
  else if trimmed = "." then .ok "."
  else
    let normalized :=
      String.mk (stripTrailingSlashes (stripLeadingSlashes trimmed.data))
    match assertSafeWorktreePath normalized with
    | .error e => .error e
    | .ok _ => .ok normalized

def normalizeRulesList : List String → Except GitError (List String)
  | [] => .ok []
  | r :: rest =>
      match normalizeRule r with
      | .error e => .error e
      | .ok n =>
          match normalizeRulesList rest with
          | .error e => .error e
          | .ok ns => .ok (n :: ns)

/-- First-occurrence deduplication, as a JavaScript `Set` iteration
produces. -/
def dedupeStrings (seen : List String) : List String → List String
  | [] => []
  | a :: rest =>
      if seen.contains a then dedupeStrings seen rest
      else a :: dedupeStrings (a :: seen) rest

/-- `normalizeSparseRules(rules)`: normalize each rule, deduplicate,
sort. -/
def normalizeSparseRules (rules : List String) :
    Except GitError (List String) :=
  match normalizeRulesList rules with
  | .error e => .error e
  | .ok ns => .ok (sortStrings (dedupeStrings [] ns))

/-- A character matched by `.` in a JavaScript regex without the `s`
flag (anything but a line terminator). -/
def isRegexDotChar (c : Char) : Bool :=
  !(c.toNat = 10 || c.toNat = 13 || c.toNat = 8232 || c.toNat = 8233)

/-- The matcher compiled by `toPatternRegex`, anchored at both ends:
`**` becomes `.*`, `*` becomes `[^/]*`, `?` becomes `[^/]`, every
other character is escaped to a literal. -/
def matchPat : List Char → List Char → Bool
  | [], s => s.isEmpty
  | '*' :: '*' :: rest, s =>
      matchPat rest s ||
      (match s with
        | [] => false
        | c :: s' => isRegexDotChar c && matchPat ('*' :: '*' :: rest) s')
  | '*' :: rest, s =>
      matchPat rest s ||
      (match s with
        | [] => false
        | c :: s' => !(c = '/') && matchPat ('*' :: rest) s')
  | '?' :: _, [] => false
  | '?' :: rest, c :: s => !(c = '/') && matchPat rest s
  | _ :: _, [] => false
  | c :: rest, d :: s => c = d && matchPat rest s

/-- `matchesPattern(pathValue, rules)`. -/
def matchesPattern (pathValue : String) (rules : List String) : Bool :=
  rules.any (fun rule => matchPat rule.data pathValue.data)

/-- `pathToSegments(pathValue)`: normalize, enforce safety, split. -/
def pathToSegments (pathValue : String) :
    Except GitError (List (List Char)) :=
  let normalized :=
    String.mk (stripLeadingSlashes (normalizeSlashes pathValue.data))
  match assertSafeWorktreePath normalized with
  | .error e => .error e
  | .ok _ => .ok (normalized.data.splitOn '/')

/-- One cone rule against a segmented candidate path. -/
def coneRuleMatches (candidate : List (List Char)) (rule : String) :
    Bool :=
  if rule = "." then true
  else
    let ruleSegments := rule.data.splitOn '/'
    if candidate.length < ruleSegments.length then false
    else candidate.take ruleSegments.length = ruleSegments

/-- `matchesCone(pathValue, coneRules)`. -/
def matchesCone (pathValue : String) (coneRules : List String) :
    Except GitError Bool :=
  match pathToSegments pathValue with
  | .error e => .error e
  | .ok candidate => .ok (coneRules.any (coneRuleMatches candidate))

def selectSparseGo (mode : SparseCheckoutMode)
    (normalizedRules : List String) :
    List String → Except GitError (List String)
  | [] => .ok []
  | candidate :: rest =>
      let normalizedPath :=
        String.mk (stripLeadingSlashes (normalizeSlashes candidate.data))
      match assertSafeWorktreePath normalizedPath with
      | .error e => .error e
      | .ok _ =>
          let isIncluded :=
            match mode with
            | .cone => matchesCone normalizedPath normalizedRules
            | .pattern => .ok (matchesPattern normalizedPath
                normalizedRules)
          match isIncluded with
          | .error e => .error e
          | .ok b =>
              match selectSparseGo mode normalizedRules rest with
              | .error e => .error e
              | .ok selected =>
                  .ok (if b then normalizedPath :: selected else selected)

/-- `selectSparsePaths(paths, mode, rules)`: normalize the rules, test
each normalized path, and return the selected set sorted. -/
def selectSparsePaths (paths : List String) (mode : SparseCheckoutMode)
    (rules : List String) : Except GitError (List String) :=
  match normalizeSparseRules rules with
  | .error e => .error e
  | .ok normalizedRules =>
      match selectSparseGo mode normalizedRules paths with
      | .error e => .error e
      | .ok selected => .ok (sortStrings (dedupeStrings [] selected))

/-! ### Backfill (`backfill`, `normalizeBackfillOptions`) -/

structure BackfillOptions where
  minBatchSize : Option Int
  sparse : Option Bool
  deriving DecidableEq, Repr

inductive BackfillOptionsResult where
  | ok (minBatchSize : Int) (sparse : Bool)
  | invalid (reason : String)
  deriving DecidableEq, Repr

/-- `normalizeBackfillOptions(options)`: `minBatchSize` defaults to 1
and must be a non-negative integer (integrality is enforced by the
`Int` type); `sparse` defaults to false. -/
def normalizeBackfillOptions (options : BackfillOptions) :
    BackfillOptionsResult :=
  let minBatchSize := options.minBatchSize.getD 1
  if minBatchSize < 0 then .invalid "min-batch-size invalid"
  else .ok minBatchSize (options.sparse = some true)

inductive BackfillStatus where
  | completed
  | skippedMinBatchSize
  deriving DecidableEq, Repr

structure BackfillResult where
  status : BackfillStatus
  minBatchSize : Int
  sparse : Bool
  requestedOids : List String
  fetchedOids : List String
  remainingPromisorOids : List String
  deriving DecidableEq, Repr

/-- The promisor map rebuilt by `backfill`: lowercase each key, keep
only valid OIDs. -/
def backfillPromisedByOid (state : PartialCloneState) :
    List (String × List Int) :=
  state.promisorObjects.foldl
    (fun m e =>
      let oid := jsToLower e.1
      if isObjectId oid then alSet m oid e.2 else m) []

/-- `readSparseCheckoutState` (absent file → no state; rules are
normalized at load) followed by the sparse intersection step of
`backfill`: when sparse filtering is on and a sparse state exists,
keep only candidates among the OIDs of sparse-selected index
entries. -/
def backfillCandidates (repo : PartialRepo)
    (promisedByOid : List (String × List Int)) (sparse : Bool) :
    Except GitError (List String) :=
  let requestedOids := sortStrings (alKeys promisedByOid)
  if sparse then
    match repo.sparse with
    | none => .ok requestedOids
    | some (mode, rules) =>
        match normalizeSparseRules rules with
        | .error e => .error e
        | .ok loadedRules =>
            match selectSparsePaths
                (repo.indexEntries.map (fun en => en.path)) mode
                loadedRules with
            | .error e => .error e
            | .ok selectedPaths =>
                let sparseOids :=
                  (repo.indexEntries.filter
                    (fun en => selectedPaths.contains en.path)).map
                    (fun en => jsToLower en.oid)
                .ok (requestedOids.filter
                  (fun oid => sparseOids.contains oid))
  else .ok requestedOids

/-- The fetch loop of `backfill`: validate each candidate's payload,
write a loose blob at its OID, and drop the entry from the state. -/
def backfillFetchLoop (promisedByOid : List (String × List Int)) :
    List String → PartialCloneState → List (String × List Int) →
    Except GitError (List String × PartialCloneState ×
      List (String × List Int))
  | [], state, loose => .ok ([], state, loose)
  | oid :: rest, state, loose =>
      match alGet promisedByOid oid with
      | none => .error ⟨"promised object malformed", .INTEGRITY_ERROR⟩
      | some payload =>
          if payload.length = 0 then
            .error ⟨"promised object malformed", .INTEGRITY_ERROR⟩
          else if ¬(payload.all (fun item => 0 ≤ item && item ≤ 255))
          then .error ⟨"promised object malformed", .INTEGRITY_ERROR⟩
          else
            let state' : PartialCloneState :=
              { state with promisorObjects :=
                  (alRemove state.promisorObjects oid) }
            let loose' := alSet loose oid payload
            match backfillFetchLoop promisedByOid rest state' loose' with
            | .error e => .error e
            | .ok (fetched, stateF, looseF) =>
                .ok (oid :: fetched, stateF, looseF)

/-- `backfill(options)`: normalize options, load the partial-clone
state, collect (optionally sparse-filtered) candidates; below the
minimum batch size return `skipped-min-batch-size` with the state
untouched, otherwise fetch every candidate into the loose store and
persist the updated state. -/
def backfill (repo : PartialRepo) (options : BackfillOptions) :
    Except GitError (BackfillResult × PartialRepo) :=
  match normalizeBackfillOptions options with
  | .invalid _ => .error ⟨"backfill options invalid", .INVALID_ARGUMENT⟩
  | .ok minBatchSize sparse =>
      match readPartialCloneState repo.partialClone with
      | .error e => .error e
      | .ok state =>
          let promisedByOid := backfillPromisedByOid state
          match backfillCandidates repo promisedByOid sparse with
          | .error e => .error e
          | .ok requestedOids =>
              if (requestedOids.length : Int) < minBatchSize then
                .ok ({ status := .skippedMinBatchSize,
                       minBatchSize := minBatchSize,
                       sparse := sparse,
                       requestedOids := requestedOids,
                       fetchedOids := [],
                       remainingPromisorOids :=
                         (sortStrings (alKeys promisedByOid)) }, repo)
              else
                match backfillFetchLoop promisedByOid requestedOids
                    state repo.looseObjects with
                | .error e => .error e
                | .ok (fetchedOids, stateF, looseF) =>
                    let remainingPromisorOids :=
                      sortStrings
                        (((alKeys stateF.promisorObjects).map
                          jsToLower).filter
                          (fun oid => isObjectId oid))
                    .ok ({ status := .completed,
                           minBatchSize := minBatchSize,
                           sparse := sparse,
                           requestedOids := requestedOids,
                           fetchedOids := fetchedOids,
                           remainingPromisorOids :=
                             remainingPromisorOids },
                         { repo with partialClone := some stateF,
                                     looseObjects := looseF })

/-- **C9.** Whenever the (optionally sparse-filtered) candidate set is
strictly smaller than `minBatchSize`, `backfill` returns
`skipped-min-batch-size` reporting the candidates as `requestedOids`,
an empty `fetchedOids`, and the full lex-sorted promisor set as
`remainingPromisorOids` — and the repository state (in particular the
persisted partial-clone state) is unchanged. -/
theorem backfill_skipped_min_batch (repo : PartialRepo)
    (options : BackfillOptions) (minBatchSize : Int) (sparse : Bool)
    (state : PartialCloneState) (cands : List String)
    (hopts : normalizeBackfillOptions options = .ok minBatchSize sparse)
    (hstate : readPartialCloneState repo.partialClone = .ok state)
    (hcands : backfillCandidates repo (backfillPromisedByOid state)
      sparse = .ok cands)
    (hlt : (cands.length : Int) < minBatchSize) :
    backfill repo options =
      .ok ({ status := .skippedMinBatchSize,
             minBatchSize := minBatchSize,
             sparse := sparse,
             requestedOids := cands,
             fetchedOids := [],
             remainingPromisorOids :=
               (sortStrings (alKeys (backfillPromisedByOid state))) },
           repo) := by
  unfold backfill
  simp only [hopts, hstate, hcands]
  rw [if_pos hlt]

/-- **C9 (witness).** The theorem applied to a store holding one
promisor object and `minBatchSize = 2`. -/
theorem backfill_skipped_min_batch_witness :
    backfill
        ⟨some ⟨none, [],
          [(String.mk (List.replicate 40 'a'), [7])]⟩, none, [], []⟩
        ⟨some 2, none⟩ =
      .ok ({ status := .skippedMinBatchSize,
             minBatchSize := 2,
             sparse := false,
             requestedOids := [String.mk (List.replicate 40 'a')],
             fetchedOids := [],
             remainingPromisorOids :=
               [String.mk (List.replicate 40 'a')] },
           ⟨some ⟨none, [],
             [(String.mk (List.replicate 40 'a'), [7])]⟩,
            none, [], []⟩) := by
  have h := backfill_skipped_min_batch
    ⟨some ⟨none, [],
      [(String.mk (List.replicate 40 'a'), [7])]⟩, none, [], []⟩
    ⟨some 2, none⟩ 2 false
    ⟨none, [], [(String.mk (List.replicate 40 'a'), [7])]⟩
    [String.mk (List.replicate 40 'a')]
    (by rfl) (by rfl) (by rfl) (by decide)
  exact h

end GitCore
